import Mathlib

/-!
Shallow embedding of the `vscode_launch_gen` tool (src/main.rs, src/detect.rs,
src/providers.rs, src/types.rs).

The filesystem walk is modelled by a list of `FileEntry` records (name, depth in
the walk, whether the entry is a regular file, and the file's text content —
`none` models an unreadable file).  `serde_json::from_str` is an external
library; it is modelled by an oracle `parse : String → Option Json` passed to
the detector.  Everything else is translated directly from the Rust source.
-/

namespace LaunchGen

/-- Model of `serde_json::Value`. -/
inductive Json where
  | null
  | bool (b : Bool)
  | num (n : Int)
  | str (s : String)
  | arr (elems : List Json)
  | obj (fields : List (String × Json))

/-- First binding of a key in an object's field list. -/
def lookupField : List (String × Json) → String → Option Json
  | [], _ => none
  | kv :: rest, k => if kv.1 == k then some kv.2 else lookupField rest k

/-- Model of `serde_json::Value::get` for object keys. -/
def Json.get : Json → String → Option Json
  | .obj fields, k => lookupField fields k
  | _, _ => none

/-- Char-list prefix test. -/
def isPrefixChars : List Char → List Char → Bool
  | [], _ => true
  | _ :: _, [] => false
  | p :: ps, c :: cs => p == c && isPrefixChars ps cs

/-- Char-list substring test (Rust `str::contains` on string patterns). -/
def containsChars (pat : List Char) : List Char → Bool
  | [] => pat.isEmpty
  | c :: cs => isPrefixChars pat (c :: cs) || containsChars pat cs

/-- Model of Rust `str::contains(pattern)`. -/
def strContains (s pat : String) : Bool := containsChars pat.data s.data

/-- Model of Rust `str::starts_with(pattern)`. -/
def strStartsWith (s pat : String) : Bool := isPrefixChars pat.data s.data

/-- Model of Rust `str::ends_with(pattern)`. -/
def strEndsWith (s pat : String) : Bool := isPrefixChars pat.data.reverse s.data.reverse

/-- Lexicographic order on char lists, by scalar value (Rust `Ord` on `String`). -/
def lexLe : List Char → List Char → Bool
  | [], _ => true
  | _ :: _, [] => false
  | a :: as, b :: bs =>
      if a.toNat < b.toNat then true
      else if b.toNat < a.toNat then false
      else lexLe as bs

/-- Model of Rust's total order on strings. -/
def strLe (a b : String) : Bool := lexLe a.data b.data

/-- Split a char list at every dot. -/
def splitParts : List Char → List (List Char)
  | [] => [[]]
  | c :: cs =>
      if c == '.' then [] :: splitParts cs
      else
        match splitParts cs with
        | [] => [[c]]
        | p :: ps => (c :: p) :: ps

/-- Last element of a list of char lists, with a default. -/
def lastD (d : List Char) : List (List Char) → List Char
  | [] => d
  | [x] => x
  | _ :: xs => lastD d xs

/-- Model of Rust `Path::extension` applied to a file name: the part after the
last dot, or `none` when there is no dot or the only dot is the leading one. -/
def extOf (name : String) : Option String :=
  match splitParts name.data with
  | [] => none
  | [_] => none
  | first :: rest =>
      if first.isEmpty && rest.length == 1 then none else some ⟨lastD [] rest⟩

/-- Split a char list at the first colon (Rust `splitn(2, ':')`). -/
def splitFirstColonAux : List Char → List Char × Option (List Char)
  | [] => ([], none)
  | c :: cs =>
      if c == ':' then ([], some cs)
      else (c :: (splitFirstColonAux cs).1, (splitFirstColonAux cs).2)

/-- Model of `type_arg.splitn(2, ':')` in `main`: the part before the first
colon, and — when a colon is present — the part after it. -/
def splitTypeArg (s : String) : String × Option String :=
  let r := splitFirstColonAux s.data
  (⟨r.1⟩, r.2.map fun cs => (⟨cs⟩ : String))

/-- One entry of the walked project tree: file name, depth below the walk root,
whether it is a regular file, and its content (`none` = read failure). -/
structure FileEntry where
  fileName : String
  depth : Nat
  isFile : Bool
  content : Option String
  deriving DecidableEq

/-- Model of the `ConfigProvider` trait (src/types.rs). -/
structure ConfigProvider where
  name : String
  get_config : Option String → Json
  can_detect_from_file : FileEntry → Bool
  can_detect_from_content : String → String → Bool := fun _ _ => false

def PythonConfigProvider : ConfigProvider where
  name := "python"
  get_config := fun _ => Json.obj
    [("name", .str "Python: Current File"),
     ("type", .str "debugpy"),
     ("request", .str "launch"),
     ("program", .str "${file}"),
     ("console", .str "integratedTerminal"),
     ("justMyCode", .bool true),
     ("args", .arr [])]
  can_detect_from_file := fun e =>
    match extOf e.fileName with
    | some ext => ext == "py"
    | none => false

def PythonModuleConfigProvider : ConfigProvider where
  name := "python-module"
  get_config := fun params =>
    let module_name := params.getD "app"
    Json.obj
      [("name", .str ("Python: Module " ++ module_name)),
       ("type", .str "debugpy"),
       ("request", .str "launch"),
       ("module", .str module_name),
       ("console", .str "integratedTerminal"),
       ("justMyCode", .bool true),
       ("args", .arr [])]
  can_detect_from_file := fun _ => false
  can_detect_from_content := fun filename content =>
    filename == "requirements.txt" &&
      (strContains content "django" || strContains content "pytest")

def FlaskConfigProvider : ConfigProvider where
  name := "flask"
  get_config := fun _ => Json.obj
    [("name", .str "Python: Flask"),
     ("type", .str "python"),
     ("request", .str "launch"),
     ("module", .str "flask"),
     ("env", .obj [("FLASK_APP", .str "app.py"), ("FLASK_DEBUG", .str "1")]),
     ("args", .arr [.str "run", .str "--no-debugger", .str "--no-reload"]),
     ("jinja", .bool true),
     ("justMyCode", .bool true)]
  can_detect_from_file := fun _ => false
  can_detect_from_content := fun filename content =>
    filename == "requirements.txt" && strContains content "flask"

def FastApiConfigProvider : ConfigProvider where
  name := "fastapi"
  get_config := fun _ => Json.obj
    [("name", .str "Python: FastAPI"),
     ("type", .str "python"),
     ("request", .str "launch"),
     ("module", .str "uvicorn"),
     ("args", .arr [.str "app.main:app", .str "--reload"]),
     ("justMyCode", .bool true)]
  can_detect_from_file := fun _ => false
  can_detect_from_content := fun filename content =>
    filename == "requirements.txt" && strContains content "fastapi"

def JavaScriptConfigProvider : ConfigProvider where
  name := "javascript"
  get_config := fun _ => Json.obj
    [("name", .str "JavaScript: Launch Chrome"),
     ("type", .str "chrome"),
     ("request", .str "launch"),
     ("url", .str "http://localhost:3000"),
     ("webRoot", .str "${workspaceFolder}")]
  can_detect_from_file := fun e =>
    match extOf e.fileName with
    | some ext => ext == "js"
    | none => false

def NodeConfigProvider : ConfigProvider where
  name := "node"
  get_config := fun _ => Json.obj
    [("name", .str "Node.js: Current File"),
     ("type", .str "node"),
     ("request", .str "launch"),
     ("program", .str "${file}"),
     ("console", .str "integratedTerminal")]
  can_detect_from_file := fun e => e.fileName == "package.json"

def TypeScriptConfigProvider : ConfigProvider where
  name := "typescript"
  get_config := fun _ => Json.obj
    [("name", .str "TypeScript: Current File"),
     ("type", .str "node"),
     ("request", .str "launch"),
     ("program", .str "${file}"),
     ("preLaunchTask", .str "tsc: build - tsconfig.json"),
     ("outFiles", .arr [.str "${workspaceFolder}/dist/**/*.js"])]
  can_detect_from_file := fun e =>
    match extOf e.fileName with
    | some ext => if ext == "ts" then true else e.fileName == "tsconfig.json"
    | none => e.fileName == "tsconfig.json"

def RustConfigProvider : ConfigProvider where
  name := "rust"
  get_config := fun _ => Json.obj
    [("name", .str "Rust: Debug Binary"),
     ("type", .str "lldb"),
     ("request", .str "launch"),
     ("program", .str "${workspaceFolder}/target/debug/${workspaceFolderBasename}"),
     ("args", .arr []),
     ("cwd", .str "${workspaceFolder}"),
     ("preLaunchTask", .str "cargo build")]
  can_detect_from_file := fun e =>
    match extOf e.fileName with
    | some ext => if ext == "rs" then true else e.fileName == "Cargo.toml"
    | none => e.fileName == "Cargo.toml"

def RustLibConfigProvider : ConfigProvider where
  name := "rust-lib"
  get_config := fun _ => Json.obj
    [("name", .str "Rust: Debug Library"),
     ("type", .str "lldb"),
     ("request", .str "launch"),
     ("cargo", .obj [("args", .arr [.str "build", .str "--lib"])]),
     ("args", .arr []),
     ("cwd", .str "${workspaceFolder}")]
  can_detect_from_file := fun e =>
    if e.fileName == "Cargo.toml" then
      match e.content with
      | some content => strContains content "[lib]" || !strContains content "[[bin]]"
      | none => e.fileName == "lib.rs"
    else
      e.fileName == "lib.rs"
  can_detect_from_content := fun filename content =>
    filename == "Cargo.toml" &&
      (strContains content "[lib]" || !strContains content "[[bin]]")

def RustTestConfigProvider : ConfigProvider where
  name := "rust-test"
  get_config := fun _ => Json.obj
    [("name", .str "Rust: Debug Tests"),
     ("type", .str "lldb"),
     ("request", .str "launch"),
     ("cargo", .obj [("args", .arr [.str "test", .str "--no-run"])]),
     ("args", .arr []),
     ("cwd", .str "${workspaceFolder}")]
  can_detect_from_file := fun e =>
    match extOf e.fileName with
    | some ext =>
        if ext == "rs" then
          match e.content with
          | some content => strContains content "#[test]" || strContains content "mod test"
          | none => false
        else false
    | none => false
  can_detect_from_content := fun filename content =>
    strEndsWith filename ".rs" &&
      (strContains content "#[test]" || strContains content "mod test")

def RustAllConfigProvider : ConfigProvider where
  name := "rust-all"
  get_config := fun _ => Json.obj
    [("configurations", .arr
      [.obj
        [("name", .str "Rust: Debug Binary"),
         ("type", .str "lldb"),
         ("request", .str "launch"),
         ("program", .str "${workspaceFolder}/target/debug/${workspaceFolderBasename}"),
         ("args", .arr []),
         ("cwd", .str "${workspaceFolder}"),
         ("preLaunchTask", .str "cargo build")],
       .obj
        [("name", .str "Rust: Debug Library"),
         ("type", .str "lldb"),
         ("request", .str "launch"),
         ("cargo", .obj [("args", .arr [.str "build", .str "--lib"])]),
         ("args", .arr []),
         ("cwd", .str "${workspaceFolder}")],
       .obj
        [("name", .str "Rust: Debug Tests"),
         ("type", .str "lldb"),
         ("request", .str "launch"),
         ("cargo", .obj [("args", .arr [.str "test", .str "--no-run"])]),
         ("args", .arr []),
         ("cwd", .str "${workspaceFolder}")]])]
  can_detect_from_file := fun e =>
    match extOf e.fileName with
    | some ext => if ext == "rs" then true else e.fileName == "Cargo.toml"
    | none => e.fileName == "Cargo.toml"

/-- Helper shared by the two C++ providers (src/providers.rs `detect_cpp_file`). -/
def detect_cpp_file (e : FileEntry) : Bool :=
  (match extOf e.fileName with
   | some ext => ext == "cpp" || ext == "cc" || ext == "cxx" || ext == "h" || ext == "hpp"
   | none => false)
  || e.fileName == "CMakeLists.txt" || e.fileName == "Makefile"

def CppGdbConfigProvider : ConfigProvider where
  name := "cpp-gdb"
  get_config := fun _ => Json.obj
    [("name", .str "C++: GDB"),
     ("type", .str "cppdbg"),
     ("request", .str "launch"),
     ("program", .str "${workspaceFolder}/build/${fileBasenameNoExtension}"),
     ("args", .arr []),
     ("stopAtEntry", .bool false),
     ("cwd", .str "${workspaceFolder}"),
     ("environment", .arr []),
     ("externalConsole", .bool false),
     ("MIMode", .str "gdb"),
     ("setupCommands", .arr
       [.obj
         [("description", .str "Enable pretty-printing for gdb"),
          ("text", .str "-enable-pretty-printing"),
          ("ignoreFailures", .bool true)]]),
     ("preLaunchTask", .str "C/C++: Build active file")]
  can_detect_from_file := detect_cpp_file

def CppLldbConfigProvider : ConfigProvider where
  name := "cpp-lldb"
  get_config := fun _ => Json.obj
    [("name", .str "C++: LLDB"),
     ("type", .str "lldb"),
     ("request", .str "launch"),
     ("program", .str "${workspaceFolder}/build/${fileBasenameNoExtension}"),
     ("args", .arr []),
     ("stopAtEntry", .bool false),
     ("cwd", .str "${workspaceFolder}"),
     ("environment", .arr []),
     ("externalConsole", .bool false),
     ("preLaunchTask", .str "C/C++: Build active file")]
  can_detect_from_file := detect_cpp_file

/-- The provider registry, in registration order (src/main.rs). -/
def providers : List ConfigProvider :=
  [PythonConfigProvider, PythonModuleConfigProvider, FlaskConfigProvider,
   FastApiConfigProvider, JavaScriptConfigProvider, NodeConfigProvider,
   TypeScriptConfigProvider, RustConfigProvider, RustLibConfigProvider,
   RustTestConfigProvider, RustAllConfigProvider, CppGdbConfigProvider,
   CppLldbConfigProvider]

/-- Model of the `provider_map` name lookup in `main`. -/
def lookupProvider (n : String) : Option ConfigProvider :=
  providers.find? fun p => p.name == n

/-- The names of the registered providers. -/
def providerNames : List String :=
  ["python", "python-module", "flask", "fastapi", "javascript", "node",
   "typescript", "rust", "rust-lib", "rust-test", "rust-all", "cpp-gdb",
   "cpp-lldb"]

/-- The file names remembered for content inspection (src/detect.rs). -/
def specialFileNames : List String :=
  ["requirements.txt", "package.json", "Cargo.toml", "CMakeLists.txt", "Makefile"]

/-- Mutable state of the first detection walk: tags pushed so far, the
remembered special files (`detected_files`), and the five extension flags. -/
structure DetectState where
  types : List String
  files : List (String × Option String)
  hasPython : Bool
  hasJs : Bool
  hasTs : Bool
  hasRust : Bool
  hasCpp : Bool
  deriving DecidableEq

def initState : DetectState :=
  { types := [], files := [], hasPython := false, hasJs := false,
    hasTs := false, hasRust := false, hasCpp := false }

/-- Model of `HashMap::insert` on `detected_files` (last insertion wins). -/
def upsertFile (m : List (String × Option String)) (k : String) (v : Option String) :
    List (String × Option String) :=
  if m.any fun kv => kv.1 == k then
    m.map fun kv => if kv.1 == k then (k, v) else kv
  else m ++ [(k, v)]

/-- Model of `HashMap::get` on `detected_files`. -/
def lookupFile (m : List (String × Option String)) (k : String) : Option (Option String) :=
  (m.find? fun kv => kv.1 == k).map fun kv => kv.2

/-- Extension classification of one walked file (the `match ext_str` block). -/
def scanFlags (s : DetectState) (e : FileEntry) : DetectState :=
  match extOf e.fileName with
  | some ext =>
      if ext == "py" then { s with hasPython := true }
      else if ext == "js" then { s with hasJs := true }
      else if ext == "ts" then { s with hasTs := true }
      else if ext == "rs" then { s with hasRust := true }
      else if ext == "cpp" || ext == "cc" || ext == "cxx" || ext == "h" || ext == "hpp" then
        { s with hasCpp := true }
      else s
  | none => s

/-- Remembering special files during the walk. -/
def scanFiles (s : DetectState) (e : FileEntry) : DetectState :=
  if specialFileNames.contains e.fileName then
    { s with files := upsertFile s.files e.fileName e.content }
  else s

/-- The per-provider tag pushes for one walked file. -/
def pushDetected (e : FileEntry) (ts : List String) : List String :=
  providers.foldl (fun ts p => if p.can_detect_from_file e then ts ++ [p.name] else ts) ts

/-- Processing of a single walk entry in `detect_project_types`. -/
def scanEntry (s : DetectState) (e : FileEntry) : DetectState :=
  if e.isFile then
    let s1 := scanFlags s e
    let s2 := scanFiles s1 e
    { s2 with types := pushDetected e s2.types }
  else s

/-- State after the first walk (`WalkDir::new(".").max_depth(2)`). -/
def walkState (tree : List FileEntry) : DetectState :=
  (tree.filter fun e => e.depth ≤ 2).foldl scanEntry initState

/-- Language tags emitted from the extension flags. -/
def langTags (s : DetectState) : List String :=
  (if s.hasPython then ["python"] else []) ++
  (if s.hasJs then ["javascript"] else []) ++
  (if s.hasTs then ["typescript"] else []) ++
  (if s.hasCpp then ["cpp-gdb"] else [])

/-- The npm/node special handling: push "node" when a package.json was
remembered, then sniff its parsed dependencies for react/vue/express. -/
def nodeAdds (parse : String → Option Json) (s : DetectState) : List String :=
  match lookupFile s.files "package.json" with
  | some content? =>
      "node" ::
        (match content? with
         | some c =>
             match parse c with
             | some j =>
                 match j.get "dependencies" with
                 | some deps =>
                     (if (deps.get "react").isSome then ["react"] else []) ++
                     (if (deps.get "vue").isSome then ["vue"] else []) ++
                     (if (deps.get "express").isSome then ["express"] else [])
                 | none => []
             | none => []
         | none => [])
  | none => []

/-- The Python-framework special handling over requirements.txt content. -/
def pythonFrameworkAdds (s : DetectState) : List String :=
  match lookupFile s.files "requirements.txt" with
  | some (some content) =>
      (if strContains content "flask" then ["flask"] else []) ++
      (if strContains content "fastapi" then ["fastapi"] else []) ++
      (if strContains content "django" then ["python-module:django"] else []) ++
      (if strContains content "pytest" then ["python-module:pytest"] else [])
  | _ => []

/-- The second walk (`max_depth(3)`) looking for a test-marked `.rs` file. -/
def hasRustTests (tree : List FileEntry) : Bool :=
  (tree.filter fun e => e.depth ≤ 3).any fun e =>
    e.isFile && extOf e.fileName == some "rs" &&
      (match e.content with
       | some content => strContains content "#[test]" || strContains content "mod test"
       | none => false)

/-- The library check inside the Rust block: push "rust-lib" when the
remembered Cargo.toml is readable and has a `[lib]` section or no `[[bin]]`. -/
def rustLibAdd (s : DetectState) : List String :=
  match lookupFile s.files "Cargo.toml" with
  | some (some content) =>
      if strContains content "[lib]" || !strContains content "[[bin]]" then ["rust-lib"]
      else []
  | _ => []

/-- The Rust special handling block of `detect_project_types`. -/
def rustBlock (tree : List FileEntry) (s : DetectState) (ts : List String) : List String :=
  if s.hasRust then
    let ts1 := ts ++ ["rust"]
    let ts2 := ts1 ++ rustLibAdd s
    let ts3 := ts2 ++ (if hasRustTests tree then ["rust-test"] else [])
    if 2 ≤ (["rust", "rust-lib", "rust-test"].filter fun t => ts3.contains t).length then
      ts3 ++ ["rust-all"]
    else ts3
  else ts

/-- Content-based detection for one remembered special file. -/
def contentStep (ts : List String) (fc : String × Option String) : List String :=
  match fc.2 with
  | some content =>
      providers.foldl
        (fun ts p =>
          if p.can_detect_from_content fc.1 content && !ts.contains p.name then ts ++ [p.name]
          else ts)
        ts
  | none => ts

/-- The final content-based detection pass over all remembered files. -/
def contentBlock (s : DetectState) (ts : List String) : List String :=
  s.files.foldl contentStep ts

/-- Model of `Vec::dedup`: removal of consecutive duplicates. -/
def dedupAdj : List String → List String
  | [] => []
  | a :: rest =>
      match rest with
      | [] => [a]
      | b :: _ => if a = b then dedupAdj rest else a :: dedupAdj rest

/-- All tags pushed by `detect_project_types` before the final sort + dedup. -/
def preSortTags (parse : String → Option Json) (tree : List FileEntry) : List String :=
  let s := walkState tree
  contentBlock s
    (rustBlock tree s (s.types ++ langTags s ++ nodeAdds parse s ++ pythonFrameworkAdds s))

/-- The sorted, deduplicated tag list returned by `detect_project_types`. -/
def detectCore (parse : String → Option Json) (tree : List FileEntry) : List String :=
  dedupAdj (List.insertionSort (fun a b => strLe a b = true) (preSortTags parse tree))

/-- Model of `detect_project_types` including its `Result` wrapper; the body
has no failing path, so the result is always `ok`. -/
def detect_project_types (parse : String → Option Json) (tree : List FileEntry) :
    Except String (List String) :=
  .ok (detectCore parse tree)

/-- The second line of the unknown-type warning (the joined provider names). -/
def availableTypesMessage : String :=
  "Available types: " ++ String.intercalate ", " (providers.map fun p => p.name)

/-- Processing of one explicit `--type` request: push the provider's template,
or warn when the name is unknown. -/
def explicitStep (acc : List Json × List (String × String)) (t : String) :
    List Json × List (String × String) :=
  match lookupProvider (splitTypeArg t).1 with
  | some p => (acc.1 ++ [p.get_config (splitTypeArg t).2], acc.2)
  | none =>
      (acc.1,
       acc.2 ++ [("Warning: Unknown configuration type: " ++ (splitTypeArg t).1,
                  availableTypesMessage)])

/-- The explicit-request loop of `main`: configs plus emitted warnings. -/
def processRequests (requests : List String) : List Json × List (String × String) :=
  requests.foldl explicitStep ([], [])

/-- Processing of one detected tag in `main`: skipped when some explicit
request starts with it; otherwise resolved (with the `python-module:` special
case) and appended. -/
def detectedStep (requests : List String) (cfgs : List Json) (tag : String) : List Json :=
  if requests.any fun t => strStartsWith t tag then cfgs
  else if strStartsWith tag "python-module:" then
    match lookupProvider "python-module" with
    | some p => cfgs ++ [p.get_config (splitTypeArg tag).2]
    | none => cfgs
  else
    match lookupProvider tag with
    | some p => cfgs ++ [p.get_config none]
    | none => cfgs

/-- The configuration list assembled by `main` (explicit requests first, then
detected tags when `--detect` is set), with the warnings emitted. -/
def buildConfigs (requests : List String) (detectFlag : Bool) (detected : List String) :
    List Json × List (String × String) :=
  let r := processRequests requests
  (if detectFlag then detected.foldl (detectedStep requests) r.1 else r.1, r.2)

/-- Model of `create_launch_json`: the fixed envelope around the configs. -/
def create_launch_json (configs : List Json) : Json :=
  Json.obj [("version", Json.str "0.2.0"), ("configurations", Json.arr configs)]

/-- Model of the parsed CLI arguments. -/
structure Cli where
  output : Option String
  type : List String
  detect : Bool
  dry_run : Bool

/-- Observable outcome of one run of `main`: which message path it took and
what file (if any) it wrote. -/
inductive RunOutcome where
  | dryRun (detected : List String)
  | noConfigs
  | wrote (path : String) (doc : Json)
  | fatal (msg : String)

/-- Every documented path exits with code 0; only a propagated error is fatal. -/
def RunOutcome.isSuccess : RunOutcome → Bool
  | .fatal _ => false
  | _ => true

/-- Outcome of a run together with the warnings printed to the error stream. -/
structure RunResult where
  outcome : RunOutcome
  warnings : List (String × String)

/-- The default output path `.vscode/launch.json`. -/
def defaultOutputPath : String := ".vscode/launch.json"

/-- Model of `main` (src/main.rs): run detection when requested (or implied by
dry-run), stop after printing for dry-run, otherwise assemble the configs and
either print guidance (no configs) or write the launch document. -/
def runMain (parse : String → Option Json) (args : Cli) (tree : List FileEntry) : RunResult :=
  match (if args.detect || args.dry_run then detect_project_types parse tree else .ok []) with
  | .error e => { outcome := .fatal e, warnings := [] }
  | .ok detected =>
      if args.dry_run then { outcome := .dryRun detected, warnings := [] }
      else
        let r := buildConfigs args.type args.detect detected
        if r.1.isEmpty then { outcome := .noConfigs, warnings := r.2 }
        else
          { outcome := .wrote (args.output.getD defaultOutputPath) (create_launch_json r.1),
            warnings := r.2 }

/-! ### Helper lemmas -/

theorem lexLe_total : ∀ as bs : List Char, lexLe as bs = true ∨ lexLe bs as = true
  | [], _ => Or.inl rfl
  | _ :: _, [] => Or.inr rfl
  | a :: as, b :: bs => by
      rcases Nat.lt_trichotomy a.toNat b.toNat with h | h | h
      · left
        simp [lexLe, h]
      · have h2 : ¬a.toNat < b.toNat := by omega
        have h3 : ¬b.toNat < a.toNat := by omega
        rcases lexLe_total as bs with ih | ih
        · left
          simp [lexLe, h2, h3, ih]
        · right
          simp [lexLe, h2, h3, ih]
      · right
        simp [lexLe, h]

theorem lexLe_trans : ∀ as bs cs : List Char,
    lexLe as bs = true → lexLe bs cs = true → lexLe as cs = true
  | [], _, _ => fun _ _ => rfl
  | _ :: _, [], _ => fun h1 _ => by simp [lexLe] at h1
  | _ :: _, _ :: _, [] => fun _ h2 => by simp [lexLe] at h2
  | a :: as, b :: bs, c :: cs => fun h1 h2 => by
      simp only [lexLe] at h1 h2 ⊢
      split_ifs at h1 h2 ⊢ <;> first
        | rfl
        | omega
        | exact lexLe_trans as bs cs h1 h2

theorem lexLe_antisymm : ∀ as bs : List Char,
    lexLe as bs = true → lexLe bs as = true → as = bs
  | [], [] => fun _ _ => rfl
  | [], _ :: _ => fun _ h2 => by simp [lexLe] at h2
  | _ :: _, [] => fun h1 _ => by simp [lexLe] at h1
  | a :: as, b :: bs => fun h1 h2 => by
      rcases Nat.lt_trichotomy a.toNat b.toNat with h | h | h
      · simp [lexLe, show ¬b.toNat < a.toNat by omega, h] at h2
      · have hne1 : ¬a.toNat < b.toNat := by omega
        have hne2 : ¬b.toNat < a.toNat := by omega
        simp only [lexLe, if_neg hne1, if_neg hne2] at h1 h2
        have hchar : a = b := by
          apply Char.eq_of_val_eq
          apply UInt32.eq_of_val_eq
          apply Fin.ext
          simpa [Char.toNat, UInt32.toNat] using h
        rw [hchar, lexLe_antisymm as bs h1 h2]
      · simp [lexLe, show ¬a.toNat < b.toNat by omega, h] at h1

theorem strLe_antisymm {a b : String} (h1 : strLe a b = true) (h2 : strLe b a = true) :
    a = b := by
  cases a
  cases b
  exact congrArg String.mk (lexLe_antisymm _ _ h1 h2)

instance : IsTotal String fun a b => strLe a b = true :=
  ⟨fun a b => lexLe_total a.data b.data⟩

instance : IsTrans String fun a b => strLe a b = true :=
  ⟨fun a b c => lexLe_trans a.data b.data c.data⟩

theorem mem_dedupAdj {x : String} : ∀ {l : List String}, x ∈ dedupAdj l ↔ x ∈ l
  | [] => Iff.rfl
  | [a] => Iff.rfl
  | a :: b :: rs => by
      by_cases hab : a = b
      · subst hab
        simpa [dedupAdj] using (mem_dedupAdj (l := a :: rs)).trans (by simp)
      · simpa [dedupAdj, hab] using or_congr Iff.rfl (mem_dedupAdj (l := b :: rs))

theorem dedupAdj_pairwise :
    ∀ l : List String, l.Sorted (fun a b => strLe a b = true) →
      (dedupAdj l).Pairwise fun a b => strLe a b = true ∧ a ≠ b
  | [] => fun _ => List.Pairwise.nil
  | [a] => fun _ => by simp [dedupAdj]
  | a :: b :: rs => fun h => by
      have htail : (b :: rs).Sorted (fun a b => strLe a b = true) := h.of_cons
      by_cases hab : a = b
      · simpa [dedupAdj, hab] using dedupAdj_pairwise (b :: rs) htail
      · have hrest := dedupAdj_pairwise (b :: rs) htail
        simp only [dedupAdj, hab, if_false]
        refine List.Pairwise.cons (fun x hx => ?_) hrest
        have hxmem : x ∈ b :: rs := mem_dedupAdj.mp hx
        have hax : strLe a x = true := List.rel_of_sorted_cons h x hxmem
        refine ⟨hax, fun hEq => ?_⟩
        subst hEq
        rcases List.mem_cons.mp hxmem with hXb | hXrs
        · exact hab hXb
        · have hbx : strLe b a = true := List.rel_of_sorted_cons htail a hXrs
          have hba : strLe a b = true := List.rel_of_sorted_cons h b (by simp)
          exact hab (strLe_antisymm hba hbx)

/-- Generic `foldl` invariant preservation. -/
theorem foldl_inv {α β : Type} {P : α → Prop} (step : α → β → α) :
    ∀ l : List β, (∀ a e, e ∈ l → P a → P (step a e)) → ∀ a, P a → P (l.foldl step a)
  | [], _ => fun _ ha => ha
  | e :: rest, h => fun a ha =>
      foldl_inv step rest (fun a' e' he' => h a' e' (List.mem_cons_of_mem _ he'))
        (step a e) (h a e (List.mem_cons_self _ _) ha)

/-- A `foldl` whose step preserves `P` and establishes it at some list member
satisfies `P` at the end. -/
theorem foldl_reach {α β : Type} {P : α → Prop} (step : α → β → α)
    (hstep : ∀ a e, P a → P (step a e)) {e : β} (hhit : ∀ a, P (step a e)) :
    ∀ (l : List β) (a : α), e ∈ l → P (l.foldl step a)
  | b :: rest, a, he => by
      rcases List.mem_cons.mp he with hEq | hmem
      · subst hEq
        exact foldl_inv step rest (fun a' e' _ => hstep a' e') (step a e) (hhit a)
      · exact foldl_reach step hstep hhit rest (step a b) hmem

theorem providers_map_name : providers.map (fun p => p.name) = providerNames := rfl

theorem name_mem_providerNames {p : ConfigProvider} (hp : p ∈ providers) :
    p.name ∈ providerNames :=
  providers_map_name ▸ List.mem_map.mpr ⟨p, hp, rfl⟩

/-- A fold over the registry whose step either keeps the tag list or appends
the provider's own name stays inside the start list plus the registry names. -/
theorem mem_providersFold_bound (step : List String → ConfigProvider → List String)
    (hstep : ∀ ts p, step ts p = ts ∨ step ts p = ts ++ [p.name]) {ts₀ : List String}
    {x : String} (hx : x ∈ providers.foldl step ts₀) : x ∈ ts₀ ∨ x ∈ providerNames := by
  refine foldl_inv step providers (P := fun a => ∀ y ∈ a, y ∈ ts₀ ∨ y ∈ providerNames)
    (fun a p hp ha y hy => ?_) ts₀ (fun y hy => Or.inl hy) x hx
  rcases hstep a p with hcase | hcase
  · exact ha y (hcase ▸ hy)
  · rcases List.mem_append.mp (hcase ▸ hy) with h | h
    · exact ha y h
    · exact Or.inr (List.mem_singleton.mp h ▸ name_mem_providerNames hp)

theorem mem_providersFold_mono (step : List String → ConfigProvider → List String)
    (hstep : ∀ ts p, step ts p = ts ∨ step ts p = ts ++ [p.name]) {ts₀ : List String}
    {x : String} (hx : x ∈ ts₀) : x ∈ providers.foldl step ts₀ := by
  refine foldl_inv step providers (P := fun a => x ∈ a) (fun a p _ ha => ?_) ts₀ hx
  show x ∈ step a p
  rcases hstep a p with hcase | hcase
  · rw [hcase]
    exact ha
  · rw [hcase]
    exact List.mem_append_left _ ha

theorem mem_ite_nil {α : Type} {c : Prop} [Decidable c] {l : List α} {x : α}
    (h : x ∈ if c then l else []) : x ∈ l := by
  split at h
  · exact h
  · exact absurd h (List.not_mem_nil x)

theorem mem_pushDetected_bound {e : FileEntry} {ts : List String} {x : String}
    (hx : x ∈ pushDetected e ts) : x ∈ ts ∨ x ∈ providerNames :=
  mem_providersFold_bound _ (fun ts p => by split_ifs <;> simp) hx

theorem mem_pushDetected_mono {e : FileEntry} {ts : List String} {x : String}
    (hx : x ∈ ts) : x ∈ pushDetected e ts :=
  mem_providersFold_mono _ (fun ts p => by split_ifs <;> simp) hx

theorem mem_pushDetected_self {e : FileEntry} {p : ConfigProvider} (hp : p ∈ providers)
    (hcan : p.can_detect_from_file e = true) (ts : List String) :
    p.name ∈ pushDetected e ts := by
  refine foldl_reach _ (fun a q ha => ?_) (fun a => ?_) providers ts hp
  · split_ifs
    · exact List.mem_append_left _ ha
    · exact ha
  · show p.name ∈ if p.can_detect_from_file e then a ++ [p.name] else a
    rw [if_pos hcan]
    exact List.mem_append_right _ (by simp)

theorem scanFlags_types (s : DetectState) (e : FileEntry) : (scanFlags s e).types = s.types := by
  unfold scanFlags
  split
  · split_ifs <;> rfl
  · rfl

theorem scanFiles_types (s : DetectState) (e : FileEntry) : (scanFiles s e).types = s.types := by
  unfold scanFiles
  split_ifs <;> rfl

theorem scanEntry_types (s : DetectState) (e : FileEntry) :
    (scanEntry s e).types = if e.isFile then pushDetected e s.types else s.types := by
  by_cases hf : e.isFile
  · simp [scanEntry, hf, scanFiles_types, scanFlags_types]
  · simp [scanEntry, hf]

theorem walk_types_sub {tree : List FileEntry} {x : String}
    (hx : x ∈ (walkState tree).types) : x ∈ providerNames := by
  refine foldl_inv scanEntry _ (P := fun s => ∀ y ∈ s.types, y ∈ providerNames)
    (fun s e _ hs y hy => ?_) initState (by simp [initState]) x hx
  rw [scanEntry_types] at hy
  split at hy
  · rcases mem_pushDetected_bound hy with h | h
    · exact hs y h
    · exact h
  · exact hs y hy

theorem walk_types_reach {tree : List FileEntry} {e : FileEntry} {p : ConfigProvider}
    (he : e ∈ tree) (hd : e.depth ≤ 2) (hf : e.isFile = true) (hp : p ∈ providers)
    (hcan : p.can_detect_from_file e = true) : p.name ∈ (walkState tree).types := by
  have hmem : e ∈ tree.filter (fun e => e.depth ≤ 2) :=
    List.mem_filter.mpr ⟨he, by simpa using hd⟩
  refine foldl_reach scanEntry (P := fun s => p.name ∈ s.types) (fun s e' hs => ?_)
    (fun s => ?_) _ initState hmem
  · show p.name ∈ (scanEntry s e').types
    rw [scanEntry_types]
    split
    · exact mem_pushDetected_mono hs
    · exact hs
  · show p.name ∈ (scanEntry s e).types
    rw [scanEntry_types, if_pos hf]
    exact mem_pushDetected_self hp hcan _

theorem mem_langTags_bound {s : DetectState} {x : String} (hx : x ∈ langTags s) :
    x ∈ (["python", "javascript", "typescript", "cpp-gdb"] : List String) := by
  simp only [langTags, List.mem_append] at hx
  rcases hx with ((h | h) | h) | h <;> have h' := mem_ite_nil h <;> simp at h' <;> simp [h']

theorem mem_pyAdds_bound {s : DetectState} {x : String} (hx : x ∈ pythonFrameworkAdds s) :
    x ∈ (["flask", "fastapi", "python-module:django", "python-module:pytest"] : List String) := by
  unfold pythonFrameworkAdds at hx
  split at hx
  · simp only [List.mem_append] at hx
    rcases hx with ((h | h) | h) | h <;> have h' := mem_ite_nil h <;> simp at h' <;> simp [h']
  · exact absurd hx (List.not_mem_nil x)

theorem mem_rustLibAdd {s : DetectState} {y : String} (hy : y ∈ rustLibAdd s) :
    y = "rust-lib" := by
  unfold rustLibAdd at hy
  split at hy
  · exact List.mem_singleton.mp (mem_ite_nil hy)
  · exact absurd hy (List.not_mem_nil y)

theorem mem_rustBlock_mono {tree : List FileEntry} {s : DetectState} {ts : List String}
    {x : String} (hx : x ∈ ts) : x ∈ rustBlock tree s ts := by
  simp only [rustBlock]
  split_ifs <;> simp [hx]

theorem mem_rustBlock_bound {tree : List FileEntry} {s : DetectState} {ts : List String}
    {x : String} (hx : x ∈ rustBlock tree s ts) :
    x ∈ ts ∨ x ∈ (["rust", "rust-lib", "rust-test", "rust-all"] : List String) := by
  by_cases hR : s.hasRust = true
  · simp only [rustBlock, hR, if_true] at hx
    have hlib := @mem_rustLibAdd s x
    split at hx <;> split at hx <;>
      (simp only [List.mem_append, List.mem_singleton, List.mem_cons,
        List.not_mem_nil, or_false] at hx ⊢; tauto)
  · simp only [rustBlock] at hx
    rw [if_neg hR] at hx
    exact Or.inl hx

theorem mem_contentStep_mono {ts : List String} {fc : String × Option String} {x : String}
    (hx : x ∈ ts) : x ∈ contentStep ts fc := by
  rcases hc : fc.2 with _ | content
  · simpa [contentStep, hc] using hx
  · simp only [contentStep, hc]
    exact mem_providersFold_mono _ (fun ts p => by split_ifs <;> simp) hx

theorem mem_contentStep_bound {ts : List String} {fc : String × Option String} {x : String}
    (hx : x ∈ contentStep ts fc) : x ∈ ts ∨ x ∈ providerNames := by
  rcases hc : fc.2 with _ | content
  · simp only [contentStep, hc] at hx
    exact Or.inl hx
  · simp only [contentStep, hc] at hx
    exact mem_providersFold_bound _ (fun ts p => by split_ifs <;> simp) hx

theorem mem_contentBlock_mono {s : DetectState} {ts : List String} {x : String}
    (hx : x ∈ ts) : x ∈ contentBlock s ts :=
  foldl_inv contentStep s.files (fun _ _ _ ha => mem_contentStep_mono ha) ts hx

theorem mem_contentBlock_bound {s : DetectState} {ts : List String} {x : String}
    (hx : x ∈ contentBlock s ts) : x ∈ ts ∨ x ∈ providerNames := by
  refine foldl_inv contentStep s.files (P := fun a => ∀ y ∈ a, y ∈ ts ∨ y ∈ providerNames)
    (fun a fc _ ha y hy => ?_) ts (fun y hy => Or.inl hy) x hx
  rcases mem_contentStep_bound hy with h | h
  · exact ha y h
  · exact Or.inr h

theorem node_mem_nodeAdds {parse : String → Option Json} {s : DetectState}
    {content? : Option String} (hl : lookupFile s.files "package.json" = some content?) :
    "node" ∈ nodeAdds parse s := by
  simp [nodeAdds, hl]

theorem nodeAdds_parse_none {parse : String → Option Json} {s : DetectState} {c : String}
    (hl : lookupFile s.files "package.json" = some (some c)) (hp : parse c = none) :
    nodeAdds parse s = ["node"] := by
  simp [nodeAdds, hl, hp]

theorem react_nodeAdds {parse : String → Option Json} {s : DetectState}
    (h : "react" ∈ nodeAdds parse s) :
    ∃ c j deps, lookupFile s.files "package.json" = some (some c) ∧ parse c = some j ∧
      j.get "dependencies" = some deps ∧ (deps.get "react").isSome = true := by
  unfold nodeAdds at h
  rcases hl : lookupFile s.files "package.json" with _ | content?
  · simp [hl] at h
  rcases content? with _ | c
  · simp [hl] at h
  rcases hp : parse c with _ | j
  · simp [hl, hp] at h
  rcases hd : j.get "dependencies" with _ | deps
  · simp [hl, hp, hd] at h
  by_cases hr : (deps.get "react").isSome = true
  · exact ⟨c, j, deps, rfl, hp, hd, hr⟩
  · exfalso
    simp only [hl, hp, hd] at h
    rw [if_neg hr] at h
    split_ifs at h <;> simp_all

theorem mem_preSortTags_of_nodeAdds {parse : String → Option Json} {tree : List FileEntry}
    {x : String} (hx : x ∈ nodeAdds parse (walkState tree)) : x ∈ preSortTags parse tree := by
  simp only [preSortTags]
  exact mem_contentBlock_mono (mem_rustBlock_mono (by simp [List.mem_append, hx]))

theorem mem_preSortTags_of_types {parse : String → Option Json} {tree : List FileEntry}
    {x : String} (hx : x ∈ (walkState tree).types) : x ∈ preSortTags parse tree := by
  simp only [preSortTags]
  exact mem_contentBlock_mono (mem_rustBlock_mono (by simp [List.mem_append, hx]))

theorem mem_detectCore {parse : String → Option Json} {tree : List FileEntry} {x : String} :
    x ∈ detectCore parse tree ↔ x ∈ preSortTags parse tree := by
  unfold detectCore
  rw [mem_dedupAdj]
  exact (List.perm_insertionSort _ _).mem_iff

theorem frameworkTag_nodeAdds {parse : String → Option Json} {tree : List FileEntry}
    {x : String} (hx : x ∈ preSortTags parse tree)
    (h1 : x ∉ providerNames)
    (h2 : x ∉ (["python", "javascript", "typescript", "cpp-gdb"] : List String))
    (h3 : x ∉ (["rust", "rust-lib", "rust-test", "rust-all"] : List String))
    (h4 : x ∉ (["flask", "fastapi", "python-module:django", "python-module:pytest"] : List String)) :
    x ∈ nodeAdds parse (walkState tree) := by
  simp only [preSortTags] at hx
  rcases mem_contentBlock_bound hx with hx | hx
  swap
  · exact absurd hx h1
  rcases mem_rustBlock_bound hx with hx | hx
  swap
  · exact absurd hx h3
  simp only [List.mem_append] at hx
  rcases hx with ((hx | hx) | hx) | hx
  · exact absurd (walk_types_sub hx) h1
  · exact absurd (mem_langTags_bound hx) h2
  · exact hx
  · exact absurd (mem_pyAdds_bound hx) h4

theorem splitAux_idem : ∀ cs : List Char,
    splitFirstColonAux (splitFirstColonAux cs).1 = ((splitFirstColonAux cs).1, none)
  | [] => rfl
  | c :: cs => by
      by_cases hc : (c == ':') = true
      · simp [splitFirstColonAux, hc]
      · simp only [splitFirstColonAux, hc, if_false]
        simp [splitFirstColonAux, hc, splitAux_idem cs]

theorem splitTypeArg_fst (t : String) :
    splitTypeArg (splitTypeArg t).1 = ((splitTypeArg t).1, none) := by
  simp [splitTypeArg, splitAux_idem]

/-! ### Claim theorems -/

/-- C1 counterexample: with the explicit request "rust" and the detected tag
"rust-lib", the detected-tag string does start with the requested string, yet
the detected addition is NOT skipped — its template is still appended after the
explicitly requested one. -/
theorem C1_counterexample :
    strStartsWith "rust-lib" "rust" = true ∧
      (buildConfigs ["rust"] true ["rust-lib"]).1 =
        [RustConfigProvider.get_config none, RustLibConfigProvider.get_config none] :=
  ⟨rfl, rfl⟩

/-- C1 (amended): a detected tag is skipped exactly when some explicitly
requested type string starts with the detected-tag string (the converse of the
claimed direction); in particular an explicit "rust-lib" request suppresses a
detected "rust" tag, while an explicit "rust" request does not suppress a
detected "rust-lib". -/
theorem C1_amended :
    (∀ (requests : List String) (cfgs : List Json) (tag : String),
        (requests.any fun t => strStartsWith t tag) = true →
        detectedStep requests cfgs tag = cfgs) ∧
      (buildConfigs ["rust-lib"] true ["rust"]).1 = [RustLibConfigProvider.get_config none] := by
  constructor
  · intro requests cfgs tag h
    simp [detectedStep, h]
  · rfl

/-- C1 witness: the skip rule of the amended claim at a concrete input. -/
theorem C1_witness :
    ((["rust"] : List String).any fun t => strStartsWith t "rust") = true ∧
      detectedStep ["rust"] [] "rust" = [] :=
  ⟨rfl, C1_amended.1 ["rust"] [] "rust" rfl⟩

/-- C2 counterexample: the rust-all provider is registered, yet its template
has no top-level name, type, or request field. -/
theorem C2_counterexample :
    RustAllConfigProvider ∈ providers ∧
      (RustAllConfigProvider.get_config none).get "name" = none ∧
      (RustAllConfigProvider.get_config none).get "type" = none ∧
      (RustAllConfigProvider.get_config none).get "request" = none := by
  refine ⟨by simp [providers], rfl, rfl, rfl⟩

/-- C2 (amended): every registered provider except rust-all returns, for every
optional parameter, a template with top-level `name`, `type`, and `request`
fields. -/
theorem C2_amended : ∀ p ∈ providers, p.name ≠ "rust-all" →
    ∀ param : Option String,
      ((p.get_config param).get "name").isSome = true ∧
      ((p.get_config param).get "type").isSome = true ∧
      ((p.get_config param).get "request").isSome = true := by
  intro p hp hn param
  simp only [providers, List.mem_cons, List.not_mem_nil, or_false] at hp
  rcases hp with rfl | rfl | rfl | rfl | rfl | rfl | rfl | rfl | rfl | rfl | rfl | rfl | rfl <;>
    first
      | exact ⟨rfl, rfl, rfl⟩
      | exact absurd rfl hn

/-- C2 witness: the amended claim at the python provider with no parameter. -/
theorem C2_witness :
    PythonConfigProvider ∈ providers ∧ PythonConfigProvider.name ≠ "rust-all" ∧
      (((PythonConfigProvider.get_config none).get "name").isSome = true ∧
       ((PythonConfigProvider.get_config none).get "type").isSome = true ∧
       ((PythonConfigProvider.get_config none).get "request").isSome = true) :=
  ⟨by simp [providers], by decide,
    C2_amended PythonConfigProvider (by simp [providers]) (by decide) none⟩

/-- C3: for every parse oracle and every input tree, the tag sequence returned
by detection is sorted ascending (w.r.t. the string order used by the sort) and
contains no duplicate entries. -/
theorem C3_detect_sorted_nodup (parse : String → Option Json) (tree : List FileEntry) :
    (detectCore parse tree).Sorted (fun a b => strLe a b = true) ∧
      (detectCore parse tree).Nodup := by
  have hs : (List.insertionSort (fun a b => strLe a b = true)
      (preSortTags parse tree)).Sorted (fun a b => strLe a b = true) :=
    List.sorted_insertionSort _ _
  have hp := dedupAdj_pairwise _ hs
  exact ⟨hp.imp fun h => h.1, hp.imp fun h => h.2⟩

/-- C6: requesting exactly python then node with no detection produces an
output document whose configurations list is exactly the python template
followed by the node template, verbatim and in request order. -/
theorem C6_roundtrip (parse : String → Option Json) (tree : List FileEntry) (out : String) :
    runMain parse ⟨some out, ["python", "node"], false, false⟩ tree =
      { outcome := .wrote out (Json.obj
          [("version", Json.str "0.2.0"),
           ("configurations", Json.arr
             [PythonConfigProvider.get_config none, NodeConfigProvider.get_config none])]),
        warnings := [] } :=
  rfl

/-- C7: with the dry-run flag set, main prints the detected tags and stops
with success: the outcome is the dry-run report of the detected tags and no
file write (and no warnings) ever happens, for every tree and argument set. -/
theorem C7_dry_run_no_write (parse : String → Option Json) (args : Cli)
    (tree : List FileEntry) (hdry : args.dry_run = true) :
    runMain parse args tree =
      { outcome := .dryRun (detectCore parse tree), warnings := [] } := by
  simp [runMain, detect_project_types, hdry]

/-- C7 witness: the dry-run frame property at a concrete argument set. -/
theorem C7_witness :
    ((⟨none, [], false, true⟩ : Cli).dry_run = true) ∧
      runMain (fun _ => none) (⟨none, [], false, true⟩ : Cli) [] =
        { outcome := .dryRun (detectCore (fun _ => none) []), warnings := [] } :=
  ⟨rfl, C7_dry_run_no_write (fun _ => none) _ [] rfl⟩

/-- C9: detection never fails — the result is always `ok` for every oracle and
tree (read failures, modelled as `content = none`, are absorbed as "no
evidence"); and a tree without regular files yields the empty tag sequence. -/
theorem C9_detect_total :
    (∀ (parse : String → Option Json) (tree : List FileEntry),
        ∃ l, detect_project_types parse tree = .ok l) ∧
      (∀ (parse : String → Option Json) (tree : List FileEntry),
        (∀ e ∈ tree, e.isFile = false) → detect_project_types parse tree = .ok []) := by
  constructor
  · exact fun parse tree => ⟨detectCore parse tree, rfl⟩
  · intro parse tree h
    have hws : walkState tree = initState := by
      refine foldl_inv scanEntry _ (P := fun s => s = initState) ?_ initState rfl
      intro a e he ha
      have hf : e.isFile = false := h e (List.mem_of_mem_filter he)
      rw [ha]
      simp [scanEntry, hf]
    have hempty : detectCore parse tree = [] := by
      simp only [detectCore, preSortTags, hws]
      rfl
    exact congrArg Except.ok hempty

/-- C9 witness: a tree consisting of a single directory entry. -/
theorem C9_witness :
    (∀ e ∈ ([⟨".", 0, false, none⟩] : List FileEntry), e.isFile = false) ∧
      detect_project_types (fun _ => none) [⟨".", 0, false, none⟩] = .ok [] :=
  ⟨by decide, C9_detect_total.2 (fun _ => none) _ (by decide)⟩

/-- C10: every registered provider other than python-module ignores its
parameter — its template at `some p` equals its template at `none` — and hence
an explicit `kind:param` request produces the same configuration list as the
bare `kind` request. -/
theorem C10_param_ignored : ∀ p ∈ providers, p.name ≠ "python-module" →
    (∀ s : String, p.get_config (some s) = p.get_config none) ∧
      (∀ t k s, splitTypeArg t = (k, some s) → lookupProvider k = some p →
        (processRequests [t]).1 = (processRequests [k]).1) := by
  intro p hp hn
  have hconst : ∀ s : String, p.get_config (some s) = p.get_config none := by
    simp only [providers, List.mem_cons, List.not_mem_nil, or_false] at hp
    rcases hp with rfl | rfl | rfl | rfl | rfl | rfl | rfl | rfl | rfl | rfl | rfl | rfl | rfl <;>
      first
        | exact fun s => rfl
        | exact absurd rfl hn
  refine ⟨hconst, fun t k s ht hk => ?_⟩
  have hks : splitTypeArg k = (k, none) := by
    have h := splitTypeArg_fst t
    rw [ht] at h
    simpa using h
  simp only [processRequests, List.foldl, explicitStep, ht, hk, hks]
  simp [hconst s]

/-- C8: an unknown requested type alongside a valid one produces exactly one
warning (naming the unknown type and listing all known provider names), does
not abort the run, still writes the valid type's template, and the run ends in
a successful (exit code 0) outcome. -/
theorem C8_unknown_type (parse : String → Option Json) (tree : List FileEntry)
    (u v : String) (p : ConfigProvider)
    (hu : lookupProvider (splitTypeArg u).1 = none)
    (hv : lookupProvider (splitTypeArg v).1 = some p) :
    runMain parse (⟨some "launch.json", [u, v], false, false⟩ : Cli) tree =
      { outcome := .wrote "launch.json" (create_launch_json [p.get_config (splitTypeArg v).2]),
        warnings := [("Warning: Unknown configuration type: " ++ (splitTypeArg u).1,
                      availableTypesMessage)] } ∧
      (runMain parse (⟨some "launch.json", [u, v], false, false⟩ : Cli) tree).outcome.isSuccess
        = true := by
  have h : runMain parse (⟨some "launch.json", [u, v], false, false⟩ : Cli) tree =
      { outcome := .wrote "launch.json" (create_launch_json [p.get_config (splitTypeArg v).2]),
        warnings := [("Warning: Unknown configuration type: " ++ (splitTypeArg u).1,
                      availableTypesMessage)] } := by
    simp [runMain, buildConfigs, processRequests, explicitStep, hu, hv,
      detect_project_types, create_launch_json]
  exact ⟨h, by rw [h]; rfl⟩

/-- C8 witness: the unknown type "cobol" together with the valid "python". -/
theorem C8_witness :
    lookupProvider (splitTypeArg "cobol").1 = none ∧
      lookupProvider (splitTypeArg "python").1 = some PythonConfigProvider ∧
      (runMain (fun _ => none) (⟨some "launch.json", ["cobol", "python"], false, false⟩ : Cli)
          []).outcome.isSuccess = true :=
  ⟨rfl, rfl,
    (C8_unknown_type (fun _ => none) [] "cobol" "python" PythonConfigProvider rfl rfl).2⟩

/-- C4 counterexample: this tree contains a Cargo.toml manifest with no
`[[bin]]` marker and an `.rs` file whose content contains `#[test]`, yet
detection does not yield "rust-test", because the only `.rs` file sits at
depth 3: the first (depth-2) walk sees no `.rs` file, so the Rust block that
runs the depth-3 test scan is never entered. -/
theorem C4_counterexample :
    (∃ e ∈ ([⟨"Cargo.toml", 1, true, some "[package]"⟩,
             ⟨"deep.rs", 3, true, some "#[test] fn t"⟩] : List FileEntry),
        e.isFile = true ∧ e.fileName = "Cargo.toml" ∧
          ∃ c, e.content = some c ∧ strContains c "[[bin]]" = false) ∧
      (∃ e ∈ ([⟨"Cargo.toml", 1, true, some "[package]"⟩,
               ⟨"deep.rs", 3, true, some "#[test] fn t"⟩] : List FileEntry),
          e.isFile = true ∧ extOf e.fileName = some "rs" ∧
            ∃ c, e.content = some c ∧ strContains c "#[test]" = true) ∧
      "rust-test" ∉ detectCore (fun _ => none)
        [⟨"Cargo.toml", 1, true, some "[package]"⟩,
         ⟨"deep.rs", 3, true, some "#[test] fn t"⟩] := by
  decide

/-- C4 (amended): if the walked tree contains, within the depth-2 bound of the
first traversal, a readable Cargo.toml whose content has no `[[bin]]` marker
and a readable `.rs` file whose content contains `#[test]`, then detection
yields all four of "rust", "rust-lib", "rust-test", and "rust-all". -/
theorem C4_amended (parse : String → Option Json) (tree : List FileEntry)
    (hcargo : ∃ e ∈ tree, e.isFile = true ∧ e.depth ≤ 2 ∧ e.fileName = "Cargo.toml" ∧
      ∃ c, e.content = some c ∧ strContains c "[[bin]]" = false)
    (htest : ∃ e ∈ tree, e.isFile = true ∧ e.depth ≤ 2 ∧ extOf e.fileName = some "rs" ∧
      ∃ c, e.content = some c ∧ strContains c "#[test]" = true) :
    "rust" ∈ detectCore parse tree ∧ "rust-lib" ∈ detectCore parse tree ∧
      "rust-test" ∈ detectCore parse tree ∧ "rust-all" ∈ detectCore parse tree := by
  obtain ⟨e₁, he₁, hf₁, hd₁, hn₁, c₁, hc₁, hb₁⟩ := hcargo
  obtain ⟨e₂, he₂, hf₂, hd₂, hx₂, c₂, hc₂, ht₂⟩ := htest
  have hrust : RustConfigProvider.can_detect_from_file e₁ = true := by
    simp only [RustConfigProvider, hn₁]
    decide
  have hlib : RustLibConfigProvider.can_detect_from_file e₁ = true := by
    simp only [RustLibConfigProvider, hn₁, hc₁]
    simp [hb₁]
  have htst : RustTestConfigProvider.can_detect_from_file e₂ = true := by
    simp only [RustTestConfigProvider, hx₂, hc₂]
    simp [ht₂]
  have hall : RustAllConfigProvider.can_detect_from_file e₁ = true := by
    simp only [RustAllConfigProvider, hn₁]
    decide
  refine ⟨?_, ?_, ?_, ?_⟩ <;> apply mem_detectCore.mpr <;> apply mem_preSortTags_of_types
  · exact walk_types_reach he₁ hd₁ hf₁ (by simp [providers]) hrust
  · exact walk_types_reach he₁ hd₁ hf₁ (by simp [providers]) hlib
  · exact walk_types_reach he₂ hd₂ hf₂ (by simp [providers]) htst
  · exact walk_types_reach he₁ hd₁ hf₁ (by simp [providers]) hall

/-- C4 witness: the amended claim at a concrete in-bounds Rust library tree. -/
theorem C4_witness :
    (∃ e ∈ ([⟨"Cargo.toml", 1, true, some "[package]"⟩,
             ⟨"lib.rs", 1, true, some "#[test] fn works"⟩] : List FileEntry),
        e.isFile = true ∧ e.depth ≤ 2 ∧ e.fileName = "Cargo.toml" ∧
          ∃ c, e.content = some c ∧ strContains c "[[bin]]" = false) ∧
      (∃ e ∈ ([⟨"Cargo.toml", 1, true, some "[package]"⟩,
               ⟨"lib.rs", 1, true, some "#[test] fn works"⟩] : List FileEntry),
          e.isFile = true ∧ e.depth ≤ 2 ∧ extOf e.fileName = some "rs" ∧
            ∃ c, e.content = some c ∧ strContains c "#[test]" = true) ∧
      ("rust" ∈ detectCore (fun _ => none)
          [⟨"Cargo.toml", 1, true, some "[package]"⟩,
           ⟨"lib.rs", 1, true, some "#[test] fn works"⟩] ∧
       "rust-lib" ∈ detectCore (fun _ => none)
          [⟨"Cargo.toml", 1, true, some "[package]"⟩,
           ⟨"lib.rs", 1, true, some "#[test] fn works"⟩] ∧
       "rust-test" ∈ detectCore (fun _ => none)
          [⟨"Cargo.toml", 1, true, some "[package]"⟩,
           ⟨"lib.rs", 1, true, some "#[test] fn works"⟩] ∧
       "rust-all" ∈ detectCore (fun _ => none)
          [⟨"Cargo.toml", 1, true, some "[package]"⟩,
           ⟨"lib.rs", 1, true, some "#[test] fn works"⟩]) :=
  ⟨by decide, by decide, C4_amended (fun _ => none) _ (by decide) (by decide)⟩

/-- C5: when the walk remembers a package manifest with readable content, (1)
a successfully parsed dependencies object containing "react" yields the react
tag; (2) when no parse result carries a react dependency, no react tag is
produced; (3) an unparseable manifest yields none of the react/vue/express
tags, while "node" is still produced. -/
theorem C5_react (parse : String → Option Json) (tree : List FileEntry) (c : String)
    (hl : lookupFile (walkState tree).files "package.json" = some (some c)) :
    ((∃ j deps, parse c = some j ∧ j.get "dependencies" = some deps ∧
        (deps.get "react").isSome = true) → "react" ∈ detectCore parse tree) ∧
      ((∀ j, parse c = some j → ((j.get "dependencies").bind fun d => d.get "react") = none) →
        "react" ∉ detectCore parse tree) ∧
      (parse c = none →
        "node" ∈ detectCore parse tree ∧ "react" ∉ detectCore parse tree ∧
          "vue" ∉ detectCore parse tree ∧ "express" ∉ detectCore parse tree) := by
  refine ⟨?_, ?_, ?_⟩
  · rintro ⟨j, deps, hp, hd, hr⟩
    apply mem_detectCore.mpr
    apply mem_preSortTags_of_nodeAdds
    simp [nodeAdds, hl, hp, hd, hr]
  · intro hno hmem
    obtain ⟨c₀, j, deps, hl₀, hp₀, hd₀, hr₀⟩ :=
      react_nodeAdds (frameworkTag_nodeAdds (mem_detectCore.mp hmem)
        (by decide) (by decide) (by decide) (by decide))
    have hc : c₀ = c := by
      have h1 := hl₀.symm.trans hl
      exact Option.some.inj (Option.some.inj h1)
    subst hc
    have h2 := hno j hp₀
    rw [hd₀] at h2
    have h3 : deps.get "react" = none := h2
    rw [h3] at hr₀
    simp at hr₀
  · intro hp
    have hnode := @nodeAdds_parse_none parse _ _ hl hp
    refine ⟨?_, ?_, ?_, ?_⟩
    · exact mem_detectCore.mpr (mem_preSortTags_of_nodeAdds (by simp [hnode]))
    · intro hmem
      have h := frameworkTag_nodeAdds (mem_detectCore.mp hmem)
        (by decide) (by decide) (by decide) (by decide)
      rw [hnode] at h
      simp at h
    · intro hmem
      have h := frameworkTag_nodeAdds (mem_detectCore.mp hmem)
        (by decide) (by decide) (by decide) (by decide)
      rw [hnode] at h
      simp at h
    · intro hmem
      have h := frameworkTag_nodeAdds (mem_detectCore.mp hmem)
        (by decide) (by decide) (by decide) (by decide)
      rw [hnode] at h
      simp at h

/-- C5 witness: a remembered package manifest whose parsed dependencies
contain "react" yields the react tag. -/
theorem C5_witness :
    lookupFile (walkState [⟨"package.json", 1, true, some "P"⟩]).files "package.json"
        = some (some "P") ∧
      "react" ∈ detectCore
        (fun s => if s == "P"
          then some (Json.obj [("dependencies", Json.obj [("react", Json.str "18")])])
          else none)
        [⟨"package.json", 1, true, some "P"⟩] :=
  ⟨by decide,
    (C5_react
      (fun s => if s == "P"
        then some (Json.obj [("dependencies", Json.obj [("react", Json.str "18")])])
        else none)
      [⟨"package.json", 1, true, some "P"⟩] "P" (by decide)).1
      ⟨Json.obj [("dependencies", Json.obj [("react", Json.str "18")])],
       Json.obj [("react", Json.str "18")], rfl, rfl, rfl⟩⟩

/-- C10 witness: the parameter-ignoring property at the rust provider. -/
theorem C10_witness :
    RustConfigProvider ∈ providers ∧ RustConfigProvider.name ≠ "python-module" ∧
      RustConfigProvider.get_config (some "x") = RustConfigProvider.get_config none :=
  ⟨by simp [providers], by decide,
    (C10_param_ignored RustConfigProvider (by simp [providers]) (by decide)).1 "x"⟩

end LaunchGen
